import Mathlib

/-!
Verification of the `mem-moi` memory journal (`src/Journal.ts`).

The embedding models the runtime behaviour of the TypeScript source:

* JS strings are `List Char`.
* A JS runtime value reachable from `JSON.parse` / `JSON.stringify` is `Json`
  (numeric literals are kept as their source text: no claim depends on float
  semantics, and this keeps the model exact where the claims look).
* The journal file is `Option (List Char)`: `none` is a missing file,
  `some txt` is a file whose whole text is `txt`.
* The OpenAI chat client is a function from the request the code builds to
  either a thrown API error or the returned `message.content`
  (`Option (List Char)`, `none` being JSON `null` content).
* `fs.appendFile` / `fs.readFile` become pure file-state transformations;
  thrown JS exceptions become explicit `Except` results.
-/

namespace MemMoi

/-- A JS value as produced by `JSON.parse` and consumed by `JSON.stringify`.
Numeric literals keep their surface text (`num`); object member lists keep
parse order, duplicates included (property lookup takes the last binding,
as assignment order does in JS). -/
inductive Json where
  | null
  | bool (b : Bool)
  | num (lit : List Char)
  | str (s : List Char)
  | arr (xs : List Json)
  | obj (fields : List (List Char × Json))

/-- A validated journal entry, the TS type `JournalEntry` inferred from
`journalEntrySchema` (`Journal.ts` lines 29-35). -/
structure JournalEntry where
  content : List Char
  tags : List (List Char)
  createdAt : List Char
deriving DecidableEq, Repr

/-! ### JS string primitives -/

/-- The whitespace characters of the JSON grammar, which are also the ones
`String.prototype.trim` removes that can actually occur here. -/
def isJsWs (c : Char) : Bool := c = ' ' || c = '\t' || c = '\n' || c = '\r'

/-- Drop leading JSON whitespace. -/
def skipWs (cs : List Char) : List Char := cs.dropWhile isJsWs

/-- Model of `String.prototype.trim`: strip whitespace from both ends. -/
def jsTrim (cs : List Char) : List Char :=
  ((cs.dropWhile isJsWs).reverse.dropWhile isJsWs).reverse

/-- Model of `String.prototype.split(sep)` for a one-character separator:
splitting never yields `[]`, and splitting the empty string yields `[[]]`,
exactly as in JS. -/
def jsSplit (sep : Char) : List Char → List (List Char)
  | [] => [[]]
  | c :: rest =>
    if c = sep then [] :: jsSplit sep rest
    else
      match jsSplit sep rest with
      | [] => [[c]]
      | piece :: pieces => (c :: piece) :: pieces

/-- The lines of the journal file joined by newlines: the file text between
the leading content and the final appended newline. -/
def joinNl : List (List Char) → List Char
  | [] => []
  | [l] => l
  | l :: l' :: rest => l ++ '\n' :: joinNl (l' :: rest)

/-- Model of `String.prototype.trim` on a string that may be `null` where the
code writes `content as string` and then hands it to `JSON.parse`: JS coerces
`null` to the text `"null"`. -/
def contentAsString (content : Option (List Char)) : List Char :=
  match content with
  | some s => s
  | none => ("null").data

/-! ### `JSON.stringify` -/

/-- Lower-case hex digit for a nibble. -/
def hexDig (n : Nat) : Char :=
  if n < 10 then Char.ofNat ('0'.toNat + n) else Char.ofNat ('a'.toNat + (n - 10))

/-- How `JSON.stringify` emits one character inside a string literal: the two
character escapes for quote and backslash, the short escapes for the named
control characters, `\u00XX` for the remaining control characters, and the
character itself otherwise. -/
def escChar (c : Char) : List Char :=
  if c = '"' then ['\\', '"']
  else if c = '\\' then ['\\', '\\']
  else if c = '\x08' then ['\\', 'b']
  else if c = '\t' then ['\\', 't']
  else if c = '\n' then ['\\', 'n']
  else if c = '\x0c' then ['\\', 'f']
  else if c = '\r' then ['\\', 'r']
  else if c.toNat < 0x20 then
    ['\\', 'u', '0', '0', hexDig (c.toNat / 16), hexDig (c.toNat % 16)]
  else [c]

/-- The body of a `JSON.stringify` string literal. -/
def escBody (s : List Char) : List Char := s.flatMap escChar

/-- A whole `JSON.stringify` string literal, quotes included. -/
def jsQuote (s : List Char) : List Char := '"' :: (escBody s ++ ['"'])

mutual

/-- Model of `JSON.stringify` (no indent argument): compact output, object
members in property order, strings escaped by `escChar`. -/
def stringifyJson : Json → List Char
  | .null => ("null").data
  | .bool true => ("true").data
  | .bool false => ("false").data
  | .num lit => lit
  | .str s => jsQuote s
  | .arr xs => '[' :: (stringifyElems xs ++ [']'])
  | .obj fields => '{' :: (stringifyMembers fields ++ ['}'])

/-- Array elements joined by commas. -/
def stringifyElems : List Json → List Char
  | [] => []
  | x :: xs =>
    stringifyJson x ++ (if xs.isEmpty then [] else ',' :: stringifyElems xs)

/-- Object members `"key":value` joined by commas. -/
def stringifyMembers : List (List Char × Json) → List Char
  | [] => []
  | (k, v) :: fields =>
    jsQuote k ++ ':' :: stringifyJson v
      ++ (if fields.isEmpty then [] else ',' :: stringifyMembers fields)

end

/-! ### `JSON.parse` -/

/-- Numeric value of a hex digit character, if it is one. -/
def hexVal (c : Char) : Option Nat :=
  if '0' ≤ c ∧ c ≤ '9' then some (c.toNat - '0'.toNat)
  else if 'a' ≤ c ∧ c ≤ 'f' then some (c.toNat - 'a'.toNat + 10)
  else if 'A' ≤ c ∧ c ≤ 'F' then some (c.toNat - 'A'.toNat + 10)
  else none

/-- Value of a `\uXXXX` escape from its four hex digits. -/
def hexQuad (a b c d : Char) : Option Nat := do
  let va ← hexVal a
  let vb ← hexVal b
  let vc ← hexVal c
  let vd ← hexVal d
  some (((va * 16 + vb) * 16 + vc) * 16 + vd)

/-- Body of a JSON string literal, after the opening quote, up to and past the
closing quote.  Unescaped control characters are rejected, as `JSON.parse`
rejects them.  A `\uXXXX` escape denoting a surrogate half is rejected: a JS
engine would build a (possibly lone) UTF-16 surrogate, which a Lean `Char`
cannot carry, and nothing in the repository produces one. -/
def parseStrBody : List Char → Option (List Char × List Char)
  | [] => none
  | '"' :: rest => some ([], rest)
  | '\\' :: esc =>
    match esc with
    | '"' :: rest => (parseStrBody rest).map (fun p => ('"' :: p.1, p.2))
    | '\\' :: rest => (parseStrBody rest).map (fun p => ('\\' :: p.1, p.2))
    | '/' :: rest => (parseStrBody rest).map (fun p => ('/' :: p.1, p.2))
    | 'b' :: rest => (parseStrBody rest).map (fun p => ('\x08' :: p.1, p.2))
    | 'f' :: rest => (parseStrBody rest).map (fun p => ('\x0c' :: p.1, p.2))
    | 'n' :: rest => (parseStrBody rest).map (fun p => ('\n' :: p.1, p.2))
    | 'r' :: rest => (parseStrBody rest).map (fun p => ('\r' :: p.1, p.2))
    | 't' :: rest => (parseStrBody rest).map (fun p => ('\t' :: p.1, p.2))
    | 'u' :: a :: b :: c :: d :: rest =>
      match hexQuad a b c d with
      | some n =>
        if 0xd800 ≤ n ∧ n < 0xe000 then none
        else (parseStrBody rest).map (fun p => (Char.ofNat n :: p.1, p.2))
      | none => none
    | _ => none
  | c :: rest =>
    if c.toNat < 0x20 then none
    else (parseStrBody rest).map (fun p => (c :: p.1, p.2))

/-- Longest leading run of decimal digits. -/
def spanDigits : List Char → List Char × List Char
  | [] => ([], [])
  | c :: rest =>
    if c.isDigit then
      let (ds, r) := spanDigits rest
      (c :: ds, r)
    else ([], c :: rest)

/-- The integer part of a JSON number: `0`, or a nonzero digit followed by
digits (leading zeros are a syntax error in JSON). -/
def parseIntPart : List Char → Option (List Char × List Char)
  | '0' :: rest => some (['0'], rest)
  | c :: rest =>
    if c.isDigit then
      let (ds, r) := spanDigits rest
      some (c :: ds, r)
    else none
  | [] => none

/-- The optional fraction part: `.` followed by at least one digit. -/
def parseFracPart : List Char → Option (List Char × List Char)
  | '.' :: rest =>
    match spanDigits rest with
    | ([], _) => none
    | (ds, r) => some ('.' :: ds, r)
  | cs => some ([], cs)

/-- The optional exponent part: `e`/`E`, an optional sign, at least one digit. -/
def parseExpPart : List Char → Option (List Char × List Char)
  | c :: rest =>
    if c = 'e' ∨ c = 'E' then
      let (sign, r1) :=
        match rest with
        | '+' :: r => (['+'], r)
        | '-' :: r => (['-'], r)
        | r => (([] : List Char), r)
      match spanDigits r1 with
      | ([], _) => none
      | (ds, r2) => some (c :: (sign ++ ds), r2)
    else some ([], c :: rest)
  | [] => some ([], [])

/-- A JSON numeric literal, returned as its source text. -/
def parseNumLit (cs : List Char) : Option (List Char × List Char) := do
  let (sign, cs1) :=
    match cs with
    | '-' :: r => ((['-'] : List Char), r)
    | r => ([], r)
  let (ip, cs2) ← parseIntPart cs1
  let (fp, cs3) ← parseFracPart cs2
  let (ep, cs4) ← parseExpPart cs3
  some (sign ++ ip ++ fp ++ ep, cs4)

mutual

/-- One JSON value, starting at the given (already whitespace-skipped)
position.  The fuel argument only forces termination; `jsonParse` feeds it
more fuel than any input can consume. -/
def parseVal : Nat → List Char → Option (Json × List Char)
  | 0, _ => none
  | fuel + 1, cs =>
    match cs with
    | 'n' :: 'u' :: 'l' :: 'l' :: rest => some (.null, rest)
    | 't' :: 'r' :: 'u' :: 'e' :: rest => some (.bool true, rest)
    | 'f' :: 'a' :: 'l' :: 's' :: 'e' :: rest => some (.bool false, rest)
    | '"' :: rest => (parseStrBody rest).map (fun p => (.str p.1, p.2))
    | '[' :: rest =>
      (match skipWs rest with
       | ']' :: r2 => some (.arr [], r2)
       | r2 => (parseElems fuel r2).map (fun p => (.arr p.1, p.2)))
    | '{' :: rest =>
      (match skipWs rest with
       | '}' :: r2 => some (.obj [], r2)
       | r2 => (parseMembers fuel r2).map (fun p => (.obj p.1, p.2)))
    | c :: rest =>
      if c = '-' ∨ c.isDigit then
        (parseNumLit (c :: rest)).map (fun p => (.num p.1, p.2))
      else none
    | [] => none

/-- One or more comma-separated array elements, then the closing bracket. -/
def parseElems : Nat → List Char → Option (List Json × List Char)
  | 0, _ => none
  | fuel + 1, cs => do
    let (v, r) ← parseVal fuel cs
    match skipWs r with
    | ',' :: r2 => (parseElems fuel (skipWs r2)).map (fun p => (v :: p.1, p.2))
    | ']' :: r2 => some ([v], r2)
    | _ => none

/-- One or more comma-separated `"key":value` members, then the closing
brace. -/
def parseMembers : Nat → List Char → Option (List (List Char × Json) × List Char)
  | 0, _ => none
  | fuel + 1, cs =>
    match cs with
    | '"' :: r => do
      let (key, r1) ← parseStrBody r
      match skipWs r1 with
      | ':' :: r2 => do
        let (v, r3) ← parseVal fuel (skipWs r2)
        match skipWs r3 with
        | ',' :: r4 =>
          (parseMembers fuel (skipWs r4)).map (fun p => ((key, v) :: p.1, p.2))
        | '}' :: r4 => some ([(key, v)], r4)
        | _ => none
      | _ => none
    | _ => none

end

/-- Model of `JSON.parse`: a single value with whitespace allowed around it,
and nothing after it.  `none` is a thrown `SyntaxError`.  The fuel
`cs.length + 1` always suffices: every recursive step first consumes at least
one character of input. -/
def jsonParse (cs : List Char) : Option Json :=
  match parseVal (cs.length + 1) (skipWs cs) with
  | some (v, rest) => if skipWs rest = [] then some v else none
  | none => none

/-! ### The entry schema (`journalEntrySchema`, zod) -/

/-- Numeric value of a decimal digit character (`'7'` is `7`), junk for
non-digits; only ever applied under an `isDigit` guard. -/
def digitVal (c : Char) : Nat := c.toNat - '0'.toNat

/-- Gregorian leap year. -/
def isLeapYear (y : Nat) : Bool := (y % 4 = 0 && y % 100 ≠ 0) || y % 400 = 0

/-- Days in a month of a given year. -/
def daysInMonth (y m : Nat) : Nat :=
  if m = 2 then (if isLeapYear y then 29 else 28)
  else if m = 4 ∨ m = 6 ∨ m = 9 ∨ m = 11 then 30
  else 31

/-- Digits continuing a fractional-seconds field, then a final `Z`. -/
def zodDatetimeFrac : List Char → Bool
  | ['Z'] => true
  | c :: rest => c.isDigit && zodDatetimeFrac rest
  | [] => false

/-- After the seconds field of a datetime string: either a bare `Z`, or a dot,
one or more digits, and a `Z`, ending the string. -/
def zodDatetimeTail : List Char → Bool
  | ['Z'] => true
  | '.' :: c :: rest => c.isDigit && zodDatetimeFrac rest
  | _ => false

/-- Model of zod's `z.string().datetime()` default check (`Journal.ts` line
32): `YYYY-MM-DDTHH:MM:SS` with an optional fractional-seconds part of one or
more digits, mandatory terminal `Z`, no offsets, and a real calendar date
(month 1-12, day within the month, leap years included) with hour below 24
and minute and second below 60; zod encodes the same calendar arithmetic as a
regular expression. -/
def isZodDatetime : List Char → Bool
  | y1 :: y2 :: y3 :: y4 :: '-' :: m1 :: m2 :: '-' :: d1 :: d2 ::
      'T' :: h1 :: h2 :: ':' :: n1 :: n2 :: ':' :: s1 :: s2 :: rest =>
    ([y1, y2, y3, y4, m1, m2, d1, d2, h1, h2, n1, n2, s1, s2].all Char.isDigit)
      &&
    (let y := ((digitVal y1 * 10 + digitVal y2) * 10 + digitVal y3) * 10 + digitVal y4
     let mo := digitVal m1 * 10 + digitVal m2
     let d := digitVal d1 * 10 + digitVal d2
     let h := digitVal h1 * 10 + digitVal h2
     let mi := digitVal n1 * 10 + digitVal n2
     let s := digitVal s1 * 10 + digitVal s2
     decide (1 ≤ mo) && decide (mo ≤ 12) && decide (1 ≤ d)
       && decide (d ≤ daysInMonth y mo)
       && decide (h ≤ 23) && decide (mi ≤ 59) && decide (s ≤ 59))
      && zodDatetimeTail rest
  | _ => false

/-- Property read on a JS object built by `JSON.parse`: the last binding of a
key wins, as the last assignment does when the engine builds the object. -/
def lookupField (fields : List (List Char × Json)) (key : List Char) : Option Json :=
  match fields with
  | [] => none
  | (k, v) :: rest =>
    match lookupField rest key with
    | some w => some w
    | none => if k = key then some v else none

/-- zod `z.string()`: the value must be a string. -/
def asStr : Json → Option (List Char)
  | .str s => some s
  | _ => none

/-- Element-wise string check of a member list; the first failure aborts, as
the first thrown `ZodError` does. -/
def allStrs : List Json → Option (List (List Char))
  | [] => some []
  | x :: rest => do
    let s ← asStr x
    let ss ← allStrs rest
    some (s :: ss)

/-- zod `z.array(z.string())`: the value must be an array of strings. -/
def asStrArray : Json → Option (List (List Char))
  | .arr xs => allStrs xs
  | _ => none

/-- Model of `journalEntrySchema.parse` (`Journal.ts` lines 29-33): the value
must be a plain object whose `content` is a string, whose `tags` is an array
of strings, and whose `createdAt` is a string accepted by
`z.string().datetime()`; unknown keys are stripped (zod's default); `none` is
a thrown `ZodError`. -/
def journalEntrySchemaParse (j : Json) : Option JournalEntry :=
  match j with
  | .obj fields => do
    let c ← lookupField fields (("content").data)
    let content ← asStr c
    let t ← lookupField fields (("tags").data)
    let tags ← asStrArray t
    let d ← lookupField fields (("createdAt").data)
    let createdAt ← asStr d
    if isZodDatetime createdAt then some ⟨content, tags, createdAt⟩ else none
  | _ => none

/-- The `Json` form of a validated entry, as `JSON.stringify` sees the TS
object literal `{content, tags, createdAt}` built by `store` (property order
is the literal's order). -/
def entryJson (e : JournalEntry) : Json :=
  .obj [(("content").data, .str e.content),
        (("tags").data, .arr (e.tags.map .str)),
        (("createdAt").data, .str e.createdAt)]

/-! ### The Journal component -/

/-- The client handle stored by the constructor: either the caller-supplied
`openaiClient`, or the module's own
`new OpenAI({apiKey: process.env.OPENAI_KEY})` built when the caller supplied
none (`Journal.ts` line 51). -/
inductive OpenAIClient where
  | injected (handle : Nat)
  | fromEnv (envVar : List Char)
deriving DecidableEq, Repr

/-- The fields a constructed `Journal` holds (`Journal.ts` lines 37-40). -/
structure Journal where
  filePath : List Char
  openai : OpenAIClient
  model : List Char
deriving DecidableEq, Repr

/-- Model of the constructor (`Journal.ts` lines 49-53): `openaiClient` and
`model` are optional parameters; an omitted client is replaced by a default
client built from the `OPENAI_KEY` environment variable, an omitted model by
the literal `'gpt-4.1-nano'`. -/
def mkJournal (filePath : List Char) (openaiClient : Option OpenAIClient)
    (model : Option (List Char)) : Journal :=
  { filePath := filePath
    openai := openaiClient.getD (.fromEnv (("OPENAI_KEY").data))
    model := model.getD (("gpt-4.1-nano").data) }

/-- One line of the journal file, as `load` treats it:
`journalEntrySchema.parse(JSON.parse(line))`. -/
def parseLine (line : List Char) : Option JournalEntry :=
  (jsonParse line).bind journalEntrySchemaParse

/-- The `.map(line => journalEntrySchema.parse(JSON.parse(line)))` of `load`:
the first line that throws aborts the whole map. -/
def parseLines : List (List Char) → Option (List JournalEntry)
  | [] => some []
  | l :: rest => do
    let e ← parseLine l
    let es ← parseLines rest
    some (e :: es)

/-- Model of `Journal.load` (`Journal.ts` lines 68-75).  The file text is
trimmed, split on newlines, and every line is parsed and validated; the
surrounding `try`/`catch` swallows every exception — a missing file, invalid
JSON on a line, and a schema failure all yield `[]`. -/
def load (file : Option (List Char)) : List JournalEntry :=
  match file with
  | none => []
  | some txt =>
    match parseLines (jsSplit '\n' (jsTrim txt)) with
    | some entries => entries
    | none => []

/-- Model of `Journal.append` (`Journal.ts` lines 80-82):
`fs.appendFile(this.filePath, JSON.stringify(entry) + "\n")`, creating the
file when missing.  The TS parameter type `JournalEntry` is erased at
runtime, so the model takes the JS value actually passed. -/
def append (file : Option (List Char)) (entry : Json) : Option (List Char) :=
  some ((file.getD []) ++ stringifyJson entry ++ ['\n'])

/-- The function `append` applied to a well-typed entry, as `store` calls it. -/
def appendEntry (file : Option (List Char)) (e : JournalEntry) : Option (List Char) :=
  append file (entryJson e)

/-! ### Prompts and the model-service request -/

/-- A chat message as the code builds it. -/
structure ChatMessage where
  role : List Char
  content : List Char
deriving DecidableEq

/-- The request `openai.chat.completions.create` receives. -/
structure ChatRequest where
  model : List Char
  temperature : Nat
  messages : List ChatMessage
deriving DecidableEq

/-- The behaviour of the chat endpoint: a thrown API error (left), or the
returned `choices[0].message.content`, which the API may make `null`. -/
def ChatClient := ChatRequest → Except Nat (Option (List Char))

/-- The constant `STORE_SYSTEM_PROMPT` (`Journal.ts` line 6). -/
def STORE_SYSTEM_PROMPT : List Char :=
  ("You are a memory filter and extractor. You will receive existing memories and a new interaction. Determine how surprising the interaction is relative to the memories and respond with a JSON object containing \"score\" (0-1) and \"memory\" fields.").data

/-- The constant `RETRIEVE_SYSTEM_PROMPT` (`Journal.ts` line 7). -/
def RETRIEVE_SYSTEM_PROMPT : List Char :=
  ("You are a memory retriever. Given an interaction and stored memories, select the most relevant memories and return them as a JSON array of strings.").data

/-- The template `makeStorePrompt` (`Journal.ts` lines 9-17): the template literal, with
`entries.map(e => '- ' + e.content).join('\n')` and the interaction spliced
in. -/
def makeStorePrompt (entries : List JournalEntry) (interaction : List Char) : List Char :=
  ("\nYou are a memory filter working to identify novel or significant events.\nExisting memories:\n").data
    ++ List.intercalate (("\n").data)
         (entries.map (fun e => ("- ").data ++ e.content))
    ++ ("\nNew interaction:\n\"\"\"").data
    ++ interaction
    ++ ("\"\"\"\nIf the interaction is novel or significant, rewrite it concisely as a new memory entry.\nReturn strictly a JSON object: \x7b \"memory\": string | null \x7d\n").data

/-- The template `makeRetrievePrompt` (`Journal.ts` lines 19-27): each entry is listed with
its zero-based index. -/
def makeRetrievePrompt (entries : List JournalEntry) (interaction : List Char) : List Char :=
  ("\nYou are a memory retriever tasked with selecting the most relevant memories to assist with a new interaction.\nExisting memories:\n").data
    ++ List.intercalate (("\n").data)
         (entries.enum.map (fun p =>
            '[' :: (toString p.1).data ++ ("] ").data ++ p.2.content))
    ++ ("\nNew interaction:\n\"\"\"").data
    ++ interaction
    ++ ("\"\"\"\nDetermine which memories are most relevant to the interaction.\nReturn strictly a JSON array of the selected memory strings.\n").data

/-- The request `store` sends (`Journal.ts` lines 90-100). -/
def storeRequest (entries : List JournalEntry) (model interaction : List Char) : ChatRequest :=
  { model := model
    temperature := 0
    messages := [⟨("system").data, STORE_SYSTEM_PROMPT⟩,
                 ⟨("user").data, makeStorePrompt entries interaction⟩] }

/-- The request `retrieve` sends (`Journal.ts` lines 121-131). -/
def retrieveRequest (entries : List JournalEntry) (model interaction : List Char) : ChatRequest :=
  { model := model
    temperature := 0
    messages := [⟨("system").data, RETRIEVE_SYSTEM_PROMPT⟩,
                 ⟨("user").data, makeRetrievePrompt entries interaction⟩] }

/-! ### store and retrieve -/

/-- A JS exception escaping `store`/`retrieve`: an API error from the client,
the `SyntaxError` of `JSON.parse`, or the `TypeError` of destructuring
`null`. -/
inductive JsError where
  | apiError (code : Nat)
  | syntaxError
  | typeError
deriving DecidableEq, Repr

/-- The destructuring `const { memory } = JSON.parse(raw)` (`Journal.ts` line
102): destructuring `null` throws a `TypeError`; destructuring any other
non-object value reads `undefined` (modelled `none`); on an object the
`memory` property is read. -/
def destructureMemory : Json → Except JsError (Option Json)
  | .null => .error .typeError
  | .obj fields => .ok (lookupField fields (("memory").data))
  | _ => .ok none

/-- Model of `Journal.store` (`Journal.ts` lines 87-110).  Returns the thrown
exception or unit, the journal file after the call, and the chat requests
issued.  `now` is the string `new Date().toISOString()` produced at line
107. -/
def store (file : Option (List Char)) (model : List Char) (client : ChatClient)
    (interaction now : List Char) :
    Except JsError Unit × Option (List Char) × List ChatRequest :=
  let entries := load file
  let req := storeRequest entries model interaction
  match client req with
  | .error code => (.error (.apiError code), file, [req])
  | .ok content =>
    match jsonParse (contentAsString content) with
    | none => (.error .syntaxError, file, [req])
    | some j =>
      match destructureMemory j with
      | .error err => (.error err, file, [req])
      | .ok memory =>
        match memory with
        | some (.str m) =>
          if jsTrim m = [] then (.ok (), file, [req])
          else (.ok (), appendEntry file ⟨jsTrim m, [], now⟩, [req])
        | _ => (.ok (), file, [req])

/-- Model of `Journal.retrieve` (`Journal.ts` lines 115-134).  Returns the
thrown exception or the JS value the call returns, and the chat requests
issued.  The TS annotation `const selected: string[]` is an unchecked cast:
the returned value is whatever `JSON.parse` produced. -/
def retrieve (file : Option (List Char)) (model : List Char) (client : ChatClient)
    (interaction : List Char) :
    Except JsError Json × List ChatRequest :=
  let entries := load file
  if entries.length = 0 then (.ok (.arr []), [])
  else
    let req := retrieveRequest entries model interaction
    match client req with
    | .error code => (.error (.apiError code), [req])
    | .ok content =>
      match jsonParse (contentAsString content) with
      | none => (.error .syntaxError, [req])
      | some j => (.ok j, [req])

/-- Model of `Journal.validateEntry` (`Journal.ts` lines 61-63): it simply
delegates to `journalEntrySchema.parse`. -/
def validateEntry (entry : Json) : Option JournalEntry :=
  journalEntrySchemaParse entry

/-! ## Theorems -/

/-- C7: `load()` on a missing file returns the empty sequence and raises no
error (`Journal.ts` lines 68-75: `fs.readFile` throws, the `catch` returns
`[]`). -/
theorem load_missing_file_returns_empty : load none = [] := rfl

/-- C1 (code evaluated at the failing input): `load()` on an existing file
whose content is the unparseable line `oops` returns `[]` — the `catch` in
`Journal.ts` lines 72-74 swallows the `SyntaxError` of `JSON.parse`, so the
call neither throws a `LoadError` nor surfaces the corruption, contradicting
the spec and the repository's own test
(`load() throws when file contents are invalid JSON`). -/
theorem load_corrupt_file_returns_empty : load (some (("oops").data)) = [] := rfl

/-- C9 (counterexample): constructing a `Journal` with the `openaiClient`
parameter omitted succeeds, and the constructed component holds a client the
caller never supplied — one built by the component itself from the
`OPENAI_KEY` environment variable (`Journal.ts` line 51).  So the constructor
does not require an explicit client, and the component does read environment
state. -/
theorem constructor_builds_default_client_from_env :
    (mkJournal (("test.jsonl").data) none none).openai
        = OpenAIClient.fromEnv (("OPENAI_KEY").data)
      ∧ ∀ h : Nat, OpenAIClient.fromEnv (("OPENAI_KEY").data) ≠ OpenAIClient.injected h :=
  ⟨rfl, fun _ hco => OpenAIClient.noConfusion hco⟩

/-- C9 (amended): the constructor's client parameter is optional.  When a
client is supplied the journal stores exactly it; when it is omitted the
component itself builds a default client from the `OPENAI_KEY` environment
variable; the model identifier defaults to `gpt-4.1-nano`. -/
theorem constructor_optional_client_defaults :
    ∀ (p : List Char) (c : OpenAIClient) (m : List Char),
      mkJournal p (some c) (some m) = ⟨p, c, m⟩
        ∧ mkJournal p none none
            = ⟨p, OpenAIClient.fromEnv (("OPENAI_KEY").data), ("gpt-4.1-nano").data⟩ :=
  fun _ _ _ => ⟨rfl, rfl⟩

/-- C10: `append` validates nothing (`Journal.ts` lines 80-82).  For every JS
value — the TS type is erased at runtime — it writes `JSON.stringify(entry)`
plus one newline to the end of the file unconditionally; in particular the
schema-invalid value `{content: 42, tags: "oops"}` is rejected by
`journalEntrySchema` yet appended verbatim, leaving a line of the journal
file that fails entry parsing. -/
theorem append_is_unvalidated_write :
    (∀ (file : Option (List Char)) (j : Json),
        append file j = some ((file.getD []) ++ stringifyJson j ++ ['\n']))
      ∧ journalEntrySchemaParse
          (Json.obj [(("content").data, .num (("42").data)),
                     (("tags").data, .str (("oops").data))]) = none
      ∧ append none
          (Json.obj [(("content").data, .num (("42").data)),
                     (("tags").data, .str (("oops").data))])
          = some ((("\x7b\"content\":42,\"tags\":\"oops\"\x7d\n").data))
      ∧ parseLine (("\x7b\"content\":42,\"tags\":\"oops\"\x7d").data) = none :=
  ⟨fun _ _ => rfl, rfl, rfl, rfl⟩

/-- C8: when `load()` yields the empty sequence, `retrieve` returns the empty
array immediately and issues no request to the model service (`Journal.ts`
lines 116-117). -/
theorem retrieve_empty_journal_no_model_call :
    ∀ (file : Option (List Char)) (model : List Char) (client : ChatClient)
      (interaction : List Char),
      load file = [] →
      retrieve file model client interaction = (.ok (.arr []), []) := by
  intro file model client interaction h
  unfold retrieve
  rw [h]
  rfl

/-- Witness for C8 at a missing file and a client that would throw if it were
ever called. -/
theorem retrieve_empty_journal_no_model_call_witness :
    load none = []
      ∧ retrieve none (("gpt-4.1-nano").data) (fun _ => .error 500) (("x").data)
          = (.ok (.arr []), []) :=
  ⟨rfl, retrieve_empty_journal_no_model_call none (("gpt-4.1-nano").data)
    (fun _ => .error 500) (("x").data) rfl⟩

/-- C3: `store` is atomic with respect to the journal.  Whenever any step
before the final append throws — the model call, `JSON.parse` on the
response, or the destructuring of the parsed value — the error is the call's
result and the journal file is exactly what it was before the call
(`Journal.ts` lines 87-110: the append is the last step). -/
theorem store_failure_leaves_journal_unchanged :
    ∀ (file : Option (List Char)) (model : List Char) (client : ChatClient)
      (interaction now : List Char) (e : JsError),
      (store file model client interaction now).1 = .error e →
      (store file model client interaction now).2.1 = file := by
  intro file model client interaction now e h
  unfold store at h ⊢
  cases hc : client (storeRequest (load file) model interaction) with
  | error code => simp [hc]
  | ok content =>
    cases hj : jsonParse (contentAsString content) with
    | none => simp [hc, hj]
    | some j =>
      cases hm : destructureMemory j with
      | error err => simp [hc, hj, hm]
      | ok memory =>
        cases memory with
        | none => simp [hc, hj, hm]
        | some jm =>
          cases jm with
          | str m =>
            by_cases ht : jsTrim m = []
            · simp [hc, hj, hm, ht]
            · simp [hc, hj, hm, ht] at h
          | null => simp [hc, hj, hm]
          | bool b => simp [hc, hj, hm]
          | num lit => simp [hc, hj, hm]
          | arr xs => simp [hc, hj, hm]
          | obj fields => simp [hc, hj, hm]

/-- Witness for C3: a client that throws an API error; `store` reports the
error and the (missing) journal file is untouched. -/
theorem store_failure_leaves_journal_unchanged_witness :
    (store none (("gpt-4.1-nano").data) (fun _ => .error 500) (("x").data)
        (("2025-04-19T00:00:00.000Z").data)).1 = .error (.apiError 500)
      ∧ (store none (("gpt-4.1-nano").data) (fun _ => .error 500) (("x").data)
          (("2025-04-19T00:00:00.000Z").data)).2.1 = none :=
  ⟨rfl, store_failure_leaves_journal_unchanged none (("gpt-4.1-nano").data)
    (fun _ => .error 500) (("x").data) (("2025-04-19T00:00:00.000Z").data)
    (.apiError 500) rfl⟩

/-- C2 (counterexample): on a journal with one entry, a model response of
`42` — valid JSON, but not an array of strings — does not make `retrieve`
fail: the call returns the parsed number unchecked (`Journal.ts` line 132,
the `string[]` annotation is an unchecked cast and no `ModelResponseError`
exists anywhere in the code). -/
theorem retrieve_returns_non_string_array_response :
    (retrieve
        (some (("\x7b\"content\":\"A\",\"tags\":[],\"createdAt\":\"2025-04-19T00:00:00.000Z\"\x7d\n").data))
        (("gpt-4.1-nano").data)
        (fun _ => .ok (some (("42").data)))
        (("Test").data)).1
        = .ok (.num (("42").data))
      ∧ ∀ ss : List (List Char), Json.num (("42").data) ≠ Json.arr (ss.map .str) :=
  ⟨rfl, fun _ hco => Json.noConfusion hco⟩

/-- C2 (amended): `retrieve` hands the model response to `JSON.parse` and
returns the result without any shape check: a response that is not valid
JSON throws the parse error (a `SyntaxError`, not a `ModelResponseError`,
which the code does not define), while a response that parses as any JSON
value at all — object, number, array of non-strings — is returned as-is. -/
theorem retrieve_parses_response_unchecked :
    ∀ (file : Option (List Char)) (model : List Char) (client : ChatClient)
      (interaction : List Char) (content : Option (List Char)),
      load file ≠ [] →
      client (retrieveRequest (load file) model interaction) = .ok content →
      (jsonParse (contentAsString content) = none →
          retrieve file model client interaction
            = (.error .syntaxError, [retrieveRequest (load file) model interaction]))
        ∧ ∀ j, jsonParse (contentAsString content) = some j →
            retrieve file model client interaction
              = (.ok j, [retrieveRequest (load file) model interaction]) := by
  intro file model client interaction content hne hc
  unfold retrieve
  rw [if_neg (by simpa [List.length_eq_zero] using hne)]
  refine ⟨fun hj => ?_, fun j hj => ?_⟩
  · simp only [hc, hj]
  · simp only [hc, hj]

/-- Witness for C2's amended theorem: one stored entry, a response `["B"]`;
`retrieve` returns the parsed array. -/
theorem retrieve_parses_response_unchecked_witness :
    load (some (("\x7b\"content\":\"A\",\"tags\":[],\"createdAt\":\"2025-04-19T00:00:00.000Z\"\x7d\n").data)) ≠ []
      ∧ retrieve
          (some (("\x7b\"content\":\"A\",\"tags\":[],\"createdAt\":\"2025-04-19T00:00:00.000Z\"\x7d\n").data))
          (("gpt-4.1-nano").data)
          (fun _ => .ok (some (("[\"B\"]").data)))
          (("Test").data)
          = (.ok (.arr [.str (("B").data)]),
             [retrieveRequest
               (load (some (("\x7b\"content\":\"A\",\"tags\":[],\"createdAt\":\"2025-04-19T00:00:00.000Z\"\x7d\n").data)))
               (("gpt-4.1-nano").data) (("Test").data)]) :=
  ⟨by decide,
   (retrieve_parses_response_unchecked
      (some (("\x7b\"content\":\"A\",\"tags\":[],\"createdAt\":\"2025-04-19T00:00:00.000Z\"\x7d\n").data))
      (("gpt-4.1-nano").data)
      (fun _ => .ok (some (("[\"B\"]").data)))
      (("Test").data)
      (some (("[\"B\"]").data))
      (by decide) rfl).2 (.arr [.str (("B").data)]) rfl⟩

/-- C4: for a successfully parsed and destructured model response
(`Journal.ts` lines 101-109): when the `memory` field is a string that trims
to something non-empty, `store` appends exactly one entry —
`content = memory.trim()`, `tags = []`, `createdAt` the current
`toISOString()` text — and returns without error; when `memory` is `null`,
absent, or a string that trims to empty, `store` appends nothing and returns
without error. -/
theorem store_appends_trimmed_memory_or_nothing :
    ∀ (file : Option (List Char)) (model : List Char) (client : ChatClient)
      (interaction now : List Char) (content : Option (List Char)) (j : Json)
      (memory : Option Json),
      client (storeRequest (load file) model interaction) = .ok content →
      jsonParse (contentAsString content) = some j →
      destructureMemory j = .ok memory →
      (∀ m, memory = some (.str m) → jsTrim m ≠ [] →
          store file model client interaction now
            = (.ok (), appendEntry file ⟨jsTrim m, [], now⟩,
               [storeRequest (load file) model interaction]))
        ∧ ((memory = none ∨ memory = some .null
              ∨ ∃ m, memory = some (.str m) ∧ jsTrim m = []) →
            store file model client interaction now
              = (.ok (), file, [storeRequest (load file) model interaction])) := by
  intro file model client interaction now content j memory hc hj hm
  constructor
  · intro m hmem ht
    subst hmem
    unfold store
    simp [hc, hj, hm, ht]
  · intro hcase
    unfold store
    rcases hcase with h | h | ⟨m, h, ht⟩ <;> subst h <;> simp [hc, hj, hm]
    exact fun hco => absurd ht hco

/-- Witness for C4's appending branch: response `{"memory":"Test memory"}`
on an empty journal appends exactly the entry
`{content: "Test memory", tags: [], createdAt: now}`. -/
theorem store_appends_trimmed_memory_or_nothing_witness :
    ((fun _ => .ok (some (("\x7b\"memory\":\"Test memory\"\x7d").data)) : ChatClient)
        (storeRequest (load none) (("gpt-4.1-nano").data) (("Some interaction").data))
        = .ok (some (("\x7b\"memory\":\"Test memory\"\x7d").data)))
      ∧ store none (("gpt-4.1-nano").data)
          (fun _ => .ok (some (("\x7b\"memory\":\"Test memory\"\x7d").data)))
          (("Some interaction").data) (("2025-04-19T00:00:00.000Z").data)
          = (.ok (),
             appendEntry none ⟨("Test memory").data, [], ("2025-04-19T00:00:00.000Z").data⟩,
             [storeRequest (load none) (("gpt-4.1-nano").data) (("Some interaction").data)]) :=
  ⟨rfl,
   (store_appends_trimmed_memory_or_nothing none (("gpt-4.1-nano").data)
      (fun _ => .ok (some (("\x7b\"memory\":\"Test memory\"\x7d").data)))
      (("Some interaction").data) (("2025-04-19T00:00:00.000Z").data)
      (some (("\x7b\"memory\":\"Test memory\"\x7d").data))
      (.obj [(("memory").data, .str (("Test memory").data))])
      (some (.str (("Test memory").data)))
      rfl rfl rfl).1 (("Test memory").data) rfl (by decide)⟩

/-- zod's `z.string()` accepts exactly the strings. -/
theorem asStr_eq_some (x : Json) (s : List Char) : asStr x = some s ↔ x = .str s := by
  cases x <;> simp [asStr]

/-- zod's element-wise string check accepts exactly the lists of strings. -/
theorem allStrs_eq_some (xs : List Json) (ss : List (List Char)) :
    allStrs xs = some ss ↔ xs = ss.map Json.str := by
  induction xs generalizing ss with
  | nil => cases ss <;> simp [allStrs]
  | cons x xs ih =>
    cases ss with
    | nil =>
      simp only [allStrs, Option.bind_eq_bind, Option.bind_eq_some, Option.some.injEq,
        List.map_nil, reduceCtorEq, iff_false, not_exists, not_and]
      intro s _ es _ hco
      exact absurd hco (by simp)
    | cons s ss =>
      simp only [allStrs, Option.bind_eq_bind, Option.bind_eq_some, Option.some.injEq,
        List.map_cons, List.cons.injEq, asStr_eq_some, ih]
      constructor
      · rintro ⟨a, ha, es, hes, h1, h2⟩
        subst h1 h2
        exact ⟨ha, hes⟩
      · rintro ⟨rfl, rfl⟩
        exact ⟨s, rfl, ss, rfl, rfl, rfl⟩

/-- C6: `validateEntry(candidate)` (`Journal.ts` lines 61-63, delegating to
`journalEntrySchema` at lines 29-33) succeeds with entry `e` exactly when the
candidate is an object whose `content` property is the string `e.content`,
whose `tags` property is an array of exactly the strings `e.tags`, and whose
`createdAt` property is the string `e.createdAt` accepted by the zod
datetime check; every other candidate — a missing property, a wrong type, or
an unparseable `createdAt` — makes it fail with the thrown `ZodError`
(`none`). -/
theorem validateEntry_succeeds_iff :
    ∀ (j : Json) (e : JournalEntry),
      validateEntry j = some e ↔
        ∃ fields, j = .obj fields
          ∧ lookupField fields (("content").data) = some (.str e.content)
          ∧ lookupField fields (("tags").data) = some (.arr (e.tags.map .str))
          ∧ lookupField fields (("createdAt").data) = some (.str e.createdAt)
          ∧ isZodDatetime e.createdAt = true := by
  intro j e
  constructor
  · intro h
    cases j with
    | obj fields =>
      simp only [validateEntry, journalEntrySchemaParse, Option.bind_eq_bind,
        Option.bind_eq_some] at h
      obtain ⟨c, hc, content, hcs, t, ht, tags, hts, d, hd, createdAt, hds, hfin⟩ := h
      rw [asStr_eq_some] at hcs hds
      subst hcs hds
      have htags : t = .arr (tags.map .str) := by
        cases t <;> simp only [asStrArray, reduceCtorEq] at hts
        rw [Json.arr.injEq]
        rw [allStrs_eq_some] at hts
        exact hts
      subst htags
      by_cases hz : isZodDatetime createdAt
      · rw [if_pos hz, Option.some.injEq] at hfin
        subst hfin
        exact ⟨fields, rfl, hc, ht, hd, hz⟩
      · rw [if_neg hz] at hfin
        exact absurd hfin (by simp)
    | null => exact absurd h (by simp [validateEntry, journalEntrySchemaParse])
    | bool b => exact absurd h (by simp [validateEntry, journalEntrySchemaParse])
    | num lit => exact absurd h (by simp [validateEntry, journalEntrySchemaParse])
    | str s => exact absurd h (by simp [validateEntry, journalEntrySchemaParse])
    | arr xs => exact absurd h (by simp [validateEntry, journalEntrySchemaParse])
  · rintro ⟨fields, rfl, hc, ht, hd, hz⟩
    simp only [validateEntry, journalEntrySchemaParse, Option.bind_eq_bind,
      Option.bind_eq_some]
    refine ⟨.str e.content, hc, e.content, rfl,
            .arr (e.tags.map .str), ht, e.tags, ?_,
            .str e.createdAt, hd, e.createdAt, rfl, ?_⟩
    · show allStrs (e.tags.map .str) = some e.tags
      exact (allStrs_eq_some (e.tags.map .str) e.tags).mpr rfl
    · rw [if_pos hz]

/-! ### Round-trip of one serialized entry (towards C5) -/

/-- The helper `skipWs` does nothing ahead of a non-whitespace character. -/
theorem skipWs_cons_of_not_ws {c : Char} (h : isJsWs c = false) (r : List Char) :
    skipWs (c :: r) = c :: r := by
  simp [skipWs, List.dropWhile_cons, h]

/-- The helper `skipWs` drops a leading whitespace character. -/
theorem skipWs_cons_of_ws {c : Char} (h : isJsWs c = true) (r : List Char) :
    skipWs (c :: r) = skipWs r := by
  simp [skipWs, List.dropWhile_cons, h]

/-- The lower-case hex digit characters decode to their values. -/
theorem hexVal_hexDig : ∀ n < 16, hexVal (hexDig n) = some n := by decide

set_option maxHeartbeats 2000000 in
/-- Reading a string-literal body back undoes `JSON.stringify`'s escaping:
the parser consumes the escaped body and the closing quote and returns the
original characters. -/
theorem parseStrBody_escBody (s : List Char) :
    ∀ rest, parseStrBody (escBody s ++ '"' :: rest) = some (s, rest) := by
  induction s with
  | nil => intro rest; simp [escBody, parseStrBody]
  | cons c s ih =>
    intro rest
    have hesc : escBody (c :: s) ++ '"' :: rest = escChar c ++ (escBody s ++ '"' :: rest) := by
      simp [escBody]
    rw [hesc]
    by_cases h1 : c = '"'
    · subst h1; simp [escChar, parseStrBody, ih]
    · by_cases h2 : c = '\\'
      · subst h2; simp [escChar, parseStrBody, ih]
      · by_cases h3 : c = '\x08'
        · subst h3; simp [escChar, parseStrBody, ih]
        · by_cases h4 : c = '\t'
          · subst h4; simp [escChar, parseStrBody, ih]
          · by_cases h5 : c = '\n'
            · subst h5; simp [escChar, parseStrBody, ih]
            · by_cases h6 : c = '\x0c'
              · subst h6; simp [escChar, parseStrBody, ih]
              · by_cases h7 : c = '\r'
                · subst h7; simp [escChar, parseStrBody, ih]
                · by_cases h8 : c.toNat < 0x20
                  · have e1 : hexVal '0' = some 0 := by decide
                    have e2 : hexVal (hexDig (c.toNat / 16)) = some (c.toNat / 16) :=
                      hexVal_hexDig _ (by omega)
                    have e3 : hexVal (hexDig (c.toNat % 16)) = some (c.toNat % 16) :=
                      hexVal_hexDig _ (by omega)
                    have hq : hexQuad '0' '0' (hexDig (c.toNat / 16)) (hexDig (c.toNat % 16))
                        = some c.toNat := by
                      simp only [hexQuad, e1, e2, e3, Option.bind_eq_bind, Option.some_bind]
                      congr 1
                      omega
                    have hsur : ¬(0xd800 ≤ c.toNat ∧ c.toNat < 0xe000) := by omega
                    simp [escChar, h1, h2, h3, h4, h5, h6, h7, h8, parseStrBody, hq, hsur,
                      Char.ofNat_toNat, ih]
                  · have hne : escChar c = [c] := by
                      simp [escChar, h1, h2, h3, h4, h5, h6, h7, h8]
                    rw [hne, List.cons_append, List.nil_append, parseStrBody.eq_def]
                    split
                    · rename_i heq; exact absurd heq (by simp)
                    · rename_i heq
                      rw [List.cons.injEq] at heq
                      exact absurd heq.1 h1
                    · rename_i heq
                      rw [List.cons.injEq] at heq
                      exact absurd heq.1 h2
                    · rename_i c' rest' hne1 hne2 hne3 heq
                      rw [List.cons.injEq] at heq
                      obtain ⟨rfl, rfl⟩ := heq
                      rw [if_neg (by exact h8)]
                      simp [ih]

/-- A parsed value at successor fuel: a whole string literal. -/
theorem parseVal_quote (f : Nat) (s rest : List Char) :
    parseVal (f + 1) (jsQuote s ++ rest) = some (.str s, rest) := by
  have h : jsQuote s ++ rest = '"' :: (escBody s ++ '"' :: rest) := by
    simp [jsQuote]
  rw [h]
  simp [parseVal, parseStrBody_escBody]

/-- The serialized elements of a nonempty string array, cons-exposed: they
begin with the first element's opening quote. -/
theorem stringifyElems_strs_cons (t : List Char) (ts : List (List Char)) (x : List Char) :
    stringifyElems ((t :: ts).map .str) ++ x
      = '"' :: (escBody t ++ '"' ::
          ((if ts.isEmpty then [] else ',' :: stringifyElems (ts.map .str)) ++ x)) := by
  cases ts <;> simp [stringifyElems, stringifyJson, jsQuote]

/-- A parsed element list: the serialized elements of a string array, with
fuel beyond the element count. -/
theorem parseElems_strs (ts : List (List Char)) :
    ∀ (f : Nat) (rest : List Char), ts ≠ [] → ts.length < f →
      parseElems f (stringifyElems (ts.map .str) ++ ']' :: rest)
        = some (ts.map .str, rest) := by
  induction ts with
  | nil => intro f rest hne _; exact absurd rfl hne
  | cons t ts ih =>
    intro f rest _ hlen
    match f, hlen with
    | g + 1, hlen =>
      cases ts with
      | nil =>
        match g, hlen with
        | g' + 1, _ =>
          have h : stringifyElems ([t].map .str) ++ ']' :: rest
              = jsQuote t ++ ']' :: rest := by
            simp [stringifyElems, stringifyJson]
          rw [h]
          simp only [parseElems, Option.bind_eq_bind]
          rw [parseVal_quote g' t (']' :: rest)]
          simp [skipWs_cons_of_not_ws (by decide : isJsWs ']' = false)]
      | cons t' ts' =>
        match g, hlen with
        | g' + 1, hlen =>
          have h : stringifyElems ((t :: t' :: ts').map .str) ++ ']' :: rest
              = jsQuote t ++ ',' :: (stringifyElems ((t' :: ts').map .str) ++ ']' :: rest) := by
            simp [stringifyElems, stringifyJson]
          rw [h]
          have hskip : skipWs (stringifyElems ((t' :: ts').map .str) ++ ']' :: rest)
              = stringifyElems ((t' :: ts').map .str) ++ ']' :: rest := by
            rw [stringifyElems_strs_cons]
            exact skipWs_cons_of_not_ws (by decide) _
          have hih := ih (g' + 1) rest (by simp) (by simpa using Nat.lt_of_succ_lt_succ hlen)
          rw [parseElems]
          rw [parseVal_quote g' t (',' :: (stringifyElems ((t' :: ts').map .str) ++ ']' :: rest))]
          simp only [Option.pure_def, Option.bind_eq_bind, Option.some_bind]
          rw [skipWs_cons_of_not_ws (by decide : isJsWs ',' = false)]
          simp only [List.map_cons] at hskip hih
          simp [hskip, hih]

/-- A parsed value at successor fuel: a whole serialized string array, with
fuel beyond the element count. -/
theorem parseVal_strArr (ts : List (List Char)) (f : Nat) (rest : List Char)
    (h : ts.length < f) :
    parseVal (f + 1) (stringifyJson (.arr (ts.map .str)) ++ rest)
      = some (.arr (ts.map .str), rest) := by
  cases ts with
  | nil =>
    simp [stringifyJson, stringifyElems, parseVal,
      skipWs_cons_of_not_ws (by decide : isJsWs ']' = false)]
  | cons t ts' =>
    have hsh : stringifyJson (.arr ((t :: ts').map .str)) ++ rest
        = '[' :: (stringifyElems ((t :: ts').map .str) ++ ']' :: rest) := by
      simp [stringifyJson]
    rw [hsh]
    have helems := parseElems_strs (t :: ts') f rest (by simp) h
    rw [stringifyElems_strs_cons] at helems ⊢
    simp only [parseVal]
    rw [show skipWs ('"' :: (escBody t ++ '"' ::
          ((if ts'.isEmpty then [] else ',' :: stringifyElems (ts'.map .str)) ++ ']' :: rest)))
        = '"' :: (escBody t ++ '"' ::
            ((if ts'.isEmpty then [] else ',' :: stringifyElems (ts'.map .str)) ++ ']' :: rest))
      from skipWs_cons_of_not_ws (by decide) _]
    simpa using helems

/-- A serialized string appended to a tail, cons-exposed. -/
theorem strJson_str_append (s x : List Char) :
    stringifyJson (.str s) ++ x = '"' :: (escBody s ++ '"' :: x) := by
  simp [stringifyJson, jsQuote]

/-- A serialized member list appended to a tail, cons-exposed at its first
key's opening quote. -/
theorem stringifyMembers_cons (k : List Char) (v : Json)
    (fs : List (List Char × Json)) (x : List Char) :
    stringifyMembers ((k, v) :: fs) ++ x
      = '"' :: (escBody k ++ '"' :: ':' ::
          (stringifyJson v ++ ((if fs.isEmpty then [] else ',' :: stringifyMembers fs) ++ x))) := by
  simp [stringifyMembers, jsQuote, List.append_assoc]

/-- A parsed value at successor fuel: a cons-exposed string literal. -/
theorem parseVal_str_step (f : Nat) (s x : List Char) :
    parseVal (f + 1) ('"' :: (escBody s ++ '"' :: x)) = some (.str s, x) := by
  simp only [parseVal]
  rw [parseStrBody_escBody]
  rfl

/-- One member of an object: the parser reads the escaped key, the colon, and
hands over to the value parser. -/
theorem parseMembers_key_step (g : Nat) (k restv : List Char) :
    parseMembers (g + 1) ('"' :: (escBody k ++ '"' :: ':' :: restv))
      = (parseVal g (skipWs restv)).bind (fun p =>
          match skipWs p.2 with
          | ',' :: r4 => (parseMembers g (skipWs r4)).map (fun q => ((k, p.1) :: q.1, q.2))
          | '}' :: r4 => some ([(k, p.1)], r4)
          | _ => none) := by
  simp only [parseMembers]
  rw [parseStrBody_escBody]
  rfl

/-- The parsed serialization of a whole journal entry: `JSON.parse` undoes
`JSON.stringify` on the three-member object `store` builds, with fuel beyond
the tag count. -/
theorem parseVal_entryJson (e : JournalEntry) (f : Nat) (rest : List Char)
    (hf : e.tags.length + 5 ≤ f) :
    parseVal f (stringifyJson (entryJson e) ++ rest) = some (entryJson e, rest) := by
  obtain ⟨G, hG, rfl⟩ : ∃ G, e.tags.length ≤ G ∧ f = G + 5 :=
    ⟨f - 5, by omega, by omega⟩
  have h0 : stringifyJson (entryJson e) ++ rest
      = '{' :: (stringifyMembers
          [((("content").data), .str e.content),
           ((("tags").data), .arr (e.tags.map .str)),
           ((("createdAt").data), .str e.createdAt)] ++ '}' :: rest) := by
    simp [entryJson, stringifyJson]
  rw [h0, stringifyMembers_cons]
  simp only [List.isEmpty_cons, List.cons_append, List.nil_append, if_false,
    Bool.false_eq_true, strJson_str_append]
  rw [stringifyMembers_cons]
  simp only [List.isEmpty_cons, List.cons_append, List.nil_append, if_false,
    Bool.false_eq_true]
  rw [stringifyMembers_cons]
  simp only [List.isEmpty_nil, if_true, List.nil_append, strJson_str_append,
    List.append_assoc, List.cons_append]
  simp only [parseVal]
  rw [skipWs_cons_of_not_ws (by decide : isJsWs '"' = false)]
  show Option.map _ (parseMembers (G + 4) _) = _
  rw [parseMembers_key_step]
  rw [skipWs_cons_of_not_ws (by decide : isJsWs '"' = false)]
  rw [parseVal_str_step]
  simp only [Option.some_bind]
  rw [skipWs_cons_of_not_ws (by decide : isJsWs ',' = false)]
  show Option.map _ (Option.map _ (parseMembers (G + 3) (skipWs _))) = _
  rw [skipWs_cons_of_not_ws (by decide : isJsWs '"' = false)]
  rw [parseMembers_key_step]
  rw [show skipWs (stringifyJson (.arr (e.tags.map .str))
        ++ ',' :: '"' :: (escBody (("createdAt").data) ++ '"' :: ':' :: '"' ::
            (escBody e.createdAt ++ '"' :: '}' :: rest)))
      = stringifyJson (.arr (e.tags.map .str))
        ++ ',' :: '"' :: (escBody (("createdAt").data) ++ '"' :: ':' :: '"' ::
            (escBody e.createdAt ++ '"' :: '}' :: rest)) from by
    cases htags : e.tags with
    | nil => simp [htags, stringifyJson, stringifyElems, skipWs, isJsWs]
    | cons t ts =>
      rw [show stringifyJson (.arr ((t :: ts).map .str)) = '[' ::
          (stringifyElems ((t :: ts).map .str) ++ [']']) from by simp [stringifyJson]]
      exact skipWs_cons_of_not_ws (by decide) _]
  rw [parseVal_strArr e.tags (G + 1) _ (by omega)]
  simp only [Option.some_bind]
  rw [skipWs_cons_of_not_ws (by decide : isJsWs ',' = false)]
  show Option.map _ (Option.map _ (Option.map _ (parseMembers (G + 2) (skipWs _)))) = _
  rw [skipWs_cons_of_not_ws (by decide : isJsWs '"' = false)]
  rw [parseMembers_key_step]
  rw [skipWs_cons_of_not_ws (by decide : isJsWs '"' = false)]
  rw [parseVal_str_step]
  simp only [Option.some_bind]
  rw [skipWs_cons_of_not_ws (by decide : isJsWs '}' = false)]
  simp [entryJson]

/-- Serializing a string array spends at least one character per element. -/
theorem stringifyElems_strs_length (ts : List (List Char)) :
    ts.length ≤ (stringifyElems (ts.map .str)).length + 1 := by
  induction ts with
  | nil => simp
  | cons t ts ih =>
    cases ts with
    | nil => simp [stringifyElems]
    | cons t' ts' =>
      have hsc := stringifyElems_strs_cons t (t' :: ts') []
      rw [List.append_nil] at hsc
      rw [hsc]
      simp only [List.map_cons] at ih
      simp at ih ⊢
      omega

/-- A serialized entry is longer than its tag count by a comfortable margin,
so the fuel `jsonParse` supplies always covers `parseVal_entryJson`. -/
theorem entryJson_length (e : JournalEntry) :
    e.tags.length + 4 ≤ (stringifyJson (entryJson e)).length := by
  have harr : e.tags.length ≤ (stringifyJson (.arr (e.tags.map .str))).length := by
    cases htags : e.tags with
    | nil => simp [stringifyJson]
    | cons t ts =>
      have h := stringifyElems_strs_length (t :: ts)
      simp only [List.length_cons] at h
      rw [show stringifyJson (.arr ((t :: ts).map .str)) = '[' ::
          (stringifyElems ((t :: ts).map .str) ++ [']']) from by simp [stringifyJson]]
      simp only [List.length_cons, List.length_append, List.length_singleton]
      omega
  rw [show stringifyJson (entryJson e) = '{' :: (stringifyMembers
        [((("content").data), .str e.content),
         ((("tags").data), .arr (e.tags.map .str)),
         ((("createdAt").data), .str e.createdAt)] ++ ['}']) from by
    simp [entryJson, stringifyJson]]
  rw [show stringifyMembers
        [((("content").data), .str e.content),
         ((("tags").data), .arr (e.tags.map .str)),
         ((("createdAt").data), .str e.createdAt)] ++ (['}'] : List Char)
      = '"' :: (escBody (("content").data) ++ '"' :: ':' ::
          (stringifyJson (.str e.content) ++ ',' :: '"' :: (escBody (("tags").data) ++ '"' :: ':' ::
            (stringifyJson (.arr (e.tags.map .str)) ++ ',' :: '"' ::
              (escBody (("createdAt").data) ++ '"' :: ':' ::
                (stringifyJson (.str e.createdAt) ++ ['}'])))))) from by
    rw [stringifyMembers_cons]
    simp only [List.isEmpty_cons, Bool.false_eq_true, if_false, List.cons_append,
      List.nil_append]
    rw [stringifyMembers_cons]
    simp only [List.isEmpty_cons, Bool.false_eq_true, if_false, List.cons_append,
      List.nil_append]
    rw [stringifyMembers_cons]
    simp [List.append_assoc]]
  simp only [List.length_cons, List.length_append]
  omega

/-- Parsing undoes `JSON.stringify` on a serialized journal entry. -/
theorem jsonParse_entryJson (e : JournalEntry) :
    jsonParse (stringifyJson (entryJson e)) = some (entryJson e) := by
  have hsh : stringifyJson (entryJson e) = '{' :: (stringifyMembers
        [((("content").data), .str e.content),
         ((("tags").data), .arr (e.tags.map .str)),
         ((("createdAt").data), .str e.createdAt)] ++ ['}']) := by
    simp [entryJson, stringifyJson]
  have hskip : skipWs (stringifyJson (entryJson e)) = stringifyJson (entryJson e) := by
    rw [hsh]; exact skipWs_cons_of_not_ws (by decide) _
  have hlen := entryJson_length e
  have hparse := parseVal_entryJson e ((stringifyJson (entryJson e)).length + 1) []
    (by omega)
  rw [List.append_nil] at hparse
  simp only [jsonParse, hskip, hparse]
  simp [skipWs]

/-- The entry schema accepts the `Json` image of a well-formed entry and
returns exactly that entry, provided its `createdAt` passes the datetime
check. -/
theorem schemaParse_entryJson (e : JournalEntry)
    (hz : isZodDatetime e.createdAt = true) :
    journalEntrySchemaParse (entryJson e) = some e := by
  have hts : allStrs (e.tags.map .str) = some e.tags :=
    (allStrs_eq_some (e.tags.map .str) e.tags).mpr rfl
  simp only [journalEntrySchemaParse, entryJson, Option.bind_eq_bind]
  rw [show lookupField
        [((("content").data), .str e.content),
         ((("tags").data), .arr (e.tags.map .str)),
         ((("createdAt").data), .str e.createdAt)] (("content").data)
      = some (.str e.content) from by simp +decide [lookupField]]
  rw [show lookupField
        [((("content").data), .str e.content),
         ((("tags").data), .arr (e.tags.map .str)),
         ((("createdAt").data), .str e.createdAt)] (("tags").data)
      = some (.arr (e.tags.map .str)) from by simp +decide [lookupField]]
  rw [show lookupField
        [((("content").data), .str e.content),
         ((("tags").data), .arr (e.tags.map .str)),
         ((("createdAt").data), .str e.createdAt)] (("createdAt").data)
      = some (.str e.createdAt) from by simp +decide [lookupField]]
  simp [asStr, asStrArray, hts, hz]

/-- One journal line round-trips: parsing and validating the serialization of
a valid entry returns exactly that entry. -/
theorem parseLine_entryJson (e : JournalEntry)
    (hz : isZodDatetime e.createdAt = true) :
    parseLine (stringifyJson (entryJson e)) = some e := by
  simp [parseLine, jsonParse_entryJson, schemaParse_entryJson e hz]

/-! ### The journal file after a run of appends (towards C5) -/

/-- No escape sequence contains a raw newline: `JSON.stringify` output stays
on one line. -/
theorem escChar_no_newline (c : Char) : '\n' ∉ escChar c := by
  have hhex : ∀ n < 16, hexDig n ≠ '\n' := by decide
  unfold escChar
  split_ifs with h1 h2 h3 h4 h5 h6 h7 h8
  · simp
  · simp
  · simp
  · simp
  · simp
  · simp
  · simp
  · intro hmem
    simp only [List.mem_cons, List.not_mem_nil, or_false] at hmem
    rcases hmem with h | h | h | h | h | h <;>
      first
        | exact absurd h.symm (by decide)
        | exact absurd h.symm (hhex _ (by omega))
  · intro hmem
    simp only [List.mem_singleton] at hmem
    exact h5 hmem.symm

/-- The body of a string literal emitted by `JSON.stringify` contains no raw
newline. -/
theorem escBody_no_newline (s : List Char) : '\n' ∉ escBody s := by
  intro hmem
  simp only [escBody, List.mem_flatMap] at hmem
  obtain ⟨a, _, h⟩ := hmem
  exact escChar_no_newline a h

/-- The serialized elements of a string array contain no raw newline. -/
theorem stringifyElems_strs_no_newline (ts : List (List Char)) :
    '\n' ∉ stringifyElems (ts.map .str) := by
  induction ts with
  | nil => simp [stringifyElems]
  | cons t ts ih =>
    have hsc := stringifyElems_strs_cons t ts []
    rw [List.append_nil] at hsc
    rw [hsc]
    intro hmem
    cases hts : ts.isEmpty <;>
      simp +decide [hts, List.mem_cons, List.mem_append, escBody_no_newline, ih] at hmem

/-- A whole serialized journal entry contains no raw newline. -/
theorem entryLine_no_newline (e : JournalEntry) :
    '\n' ∉ stringifyJson (entryJson e) := by
  rw [show stringifyJson (entryJson e)
      = '{' :: ('"' :: (escBody (("content").data) ++ '"' :: ':' :: '"' ::
          (escBody e.content ++ '"' :: ',' :: '"' :: (escBody (("tags").data) ++ '"' :: ':' ::
            (stringifyJson (.arr (e.tags.map .str)) ++ ',' :: '"' ::
              (escBody (("createdAt").data) ++ '"' :: ':' :: '"' ::
                (escBody e.createdAt ++ ['"', '}']))))))) from by
    have h0 : stringifyJson (entryJson e) = stringifyJson (entryJson e) ++ [] := by simp
    rw [h0]
    rw [show stringifyJson (entryJson e) ++ ([] : List Char)
        = '{' :: (stringifyMembers
            [((("content").data), .str e.content),
             ((("tags").data), .arr (e.tags.map .str)),
             ((("createdAt").data), .str e.createdAt)] ++ '}' :: []) from by
      simp [entryJson, stringifyJson]]
    rw [stringifyMembers_cons]
    simp only [List.isEmpty_cons, Bool.false_eq_true, if_false, List.cons_append,
      List.nil_append, strJson_str_append]
    rw [stringifyMembers_cons]
    simp only [List.isEmpty_cons, Bool.false_eq_true, if_false, List.cons_append,
      List.nil_append]
    rw [stringifyMembers_cons]
    simp [List.append_assoc, strJson_str_append]]
  have harrnl : '\n' ∉ stringifyJson (.arr (e.tags.map .str)) := by
    cases htags : e.tags with
    | nil => simp +decide [stringifyJson, stringifyElems]
    | cons t ts =>
      rw [show stringifyJson (.arr ((t :: ts).map .str)) = '[' ::
          (stringifyElems ((t :: ts).map .str) ++ [']']) from by simp [stringifyJson]]
      intro hmem
      simp only [List.mem_cons, List.mem_append, List.mem_singleton] at hmem
      rcases hmem with h | h | h
      · exact absurd h (by decide)
      · exact stringifyElems_strs_no_newline (t :: ts) h
      · exact absurd h (by decide)
  intro hmem
  simp +decide [List.mem_cons, List.mem_append, escBody_no_newline, harrnl] at hmem

/-- Splitting a separator-free string yields that one piece, as in JS. -/
theorem jsSplit_of_not_mem {sep : Char} {l : List Char} (h : sep ∉ l) :
    jsSplit sep l = [l] := by
  induction l with
  | nil => rfl
  | cons c t ih =>
    have hc : ¬ c = sep := fun hco => h (by simp [hco])
    have ht := ih (fun hco => h (by simp [hco]))
    simp [jsSplit, hc, ht]

/-- Splitting consumes a separator-free prefix up to the first separator. -/
theorem jsSplit_append {sep : Char} {l : List Char} (h : sep ∉ l) (r : List Char) :
    jsSplit sep (l ++ sep :: r) = l :: jsSplit sep r := by
  induction l with
  | nil => simp [jsSplit]
  | cons c t ih =>
    have hc : ¬ c = sep := fun hco => h (by simp [hco])
    have ht := ih (fun hco => h (by simp [hco]))
    simp [jsSplit, hc, ht]

/-- The file text written by a run of appends is the newline-join of the
lines plus a final newline. -/
theorem flatNl_eq_joinNl (ls : List (List Char)) (hne : ls ≠ []) :
    ls.flatMap (fun l => l ++ ['\n']) = joinNl ls ++ ['\n'] := by
  induction ls with
  | nil => exact absurd rfl hne
  | cons l ls ih =>
    cases ls with
    | nil => simp [joinNl]
    | cons l' ls' => simp [joinNl, ih (by simp), List.append_assoc]

/-- The newline-join of object lines starts with the first `{` and ends with
the last `}`. -/
theorem joinNl_shape (ls : List (List Char)) (hne : ls ≠ [])
    (hsh : ∀ l ∈ ls, ∃ b, l = '{' :: b ++ ['}']) :
    ∃ mid, joinNl ls = '{' :: mid ++ ['}'] := by
  induction ls with
  | nil => exact absurd rfl hne
  | cons l ls ih =>
    cases ls with
    | nil =>
      obtain ⟨b, hb⟩ := hsh l (by simp)
      exact ⟨b, by simp [joinNl, hb]⟩
    | cons l' ls' =>
      obtain ⟨mid, hmid⟩ := ih (by simp) (fun x hx => hsh x (by simp [hx]))
      obtain ⟨b, hb⟩ := hsh l (by simp)
      refine ⟨b ++ ['}'] ++ '\n' :: '{' :: mid, ?_⟩
      rw [show joinNl (l :: l' :: ls') = l ++ '\n' :: joinNl (l' :: ls') from rfl]
      rw [hb, hmid]
      simp [List.append_assoc]

/-- Trimming the journal file text removes exactly the final newline: the
text starts with `{` and, the newline dropped, ends with `}`. -/
theorem jsTrim_brace_line (mid : List Char) :
    jsTrim (('{' :: mid ++ ['}']) ++ ['\n']) = '{' :: mid ++ ['}'] := by
  have h1 : skipWs (('{' :: mid ++ ['}']) ++ ['\n'])
      = ('{' :: mid ++ ['}']) ++ ['\n'] := by
    rw [List.cons_append]
    exact skipWs_cons_of_not_ws (by decide) _
  have h2 : (('{' :: mid ++ ['}']) ++ ['\n']).reverse
      = '\n' :: '}' :: (mid.reverse ++ ['{']) := by
    simp [List.reverse_append]
  have h3 : skipWs ('\n' :: '}' :: (mid.reverse ++ ['{']))
      = '}' :: (mid.reverse ++ ['{']) := by
    rw [skipWs_cons_of_ws (by decide)]
    exact skipWs_cons_of_not_ws (by decide) _
  show ((skipWs (('{' :: mid ++ ['}']) ++ ['\n'])).reverse.dropWhile isJsWs).reverse
      = '{' :: mid ++ ['}']
  rw [h1, h2]
  show (skipWs ('\n' :: '}' :: (mid.reverse ++ ['{']))).reverse = '{' :: mid ++ ['}']
  rw [h3]
  simp

/-- Splitting the newline-join of newline-free lines recovers the lines. -/
theorem jsSplit_joinNl (ls : List (List Char)) (hne : ls ≠ [])
    (h : ∀ l ∈ ls, '\n' ∉ l) :
    jsSplit '\n' (joinNl ls) = ls := by
  induction ls with
  | nil => exact absurd rfl hne
  | cons l ls ih =>
    cases ls with
    | nil => simp [joinNl, jsSplit_of_not_mem (h l (by simp))]
    | cons l' ls' =>
      rw [show joinNl (l :: l' :: ls') = l ++ '\n' :: joinNl (l' :: ls') from rfl]
      rw [jsSplit_append (h l (by simp))]
      rw [ih (by simp) (fun x hx => h x (by simp [hx]))]

/-- Parsing back every serialized line of a run of valid entries succeeds and
returns the entries. -/
theorem parseLines_map (es : List JournalEntry)
    (h : ∀ e ∈ es, isZodDatetime e.createdAt = true) :
    parseLines (es.map (fun e => stringifyJson (entryJson e))) = some es := by
  induction es with
  | nil => rfl
  | cons e es ih =>
    simp [parseLines, parseLine_entryJson e (h e (by simp)),
      ih (fun x hx => h x (by simp [hx]))]

/-- The journal file after a run of appends starting from any existing text:
each append adds one serialized line plus a newline. -/
theorem foldl_appendEntry (es : List JournalEntry) :
    ∀ txt, es.foldl appendEntry (some txt)
      = some (txt ++ es.flatMap (fun e => stringifyJson (entryJson e) ++ ['\n'])) := by
  induction es with
  | nil => intro txt; simp
  | cons e es ih =>
    intro txt
    simp only [List.foldl_cons, List.flatMap_cons]
    rw [show appendEntry (some txt) e
        = some (txt ++ stringifyJson (entryJson e) ++ ['\n']) from rfl]
    rw [ih]
    simp [List.append_assoc]

/-- Mapping to lines first and then appending the newlines is the same as
appending per entry. -/
theorem flatMap_lines (es : List JournalEntry) :
    (es.map (fun e => stringifyJson (entryJson e))).flatMap (fun l => l ++ ['\n'])
      = es.flatMap (fun e => stringifyJson (entryJson e) ++ ['\n']) := by
  induction es with
  | nil => rfl
  | cons e es ih => simp [ih]

/-- Every serialized entry is an object line: opening brace, body, closing
brace. -/
theorem entryLine_shape (e : JournalEntry) :
    ∃ b, stringifyJson (entryJson e) = '{' :: b ++ ['}'] := by
  refine ⟨stringifyMembers
      [((("content").data), .str e.content),
       ((("tags").data), .arr (e.tags.map .str)),
       ((("createdAt").data), .str e.createdAt)], ?_⟩
  simp [entryJson, stringifyJson]

/-- C5: append followed by load round-trips.  Appending any sequence of
valid entries — entries whose `createdAt` passes the schema's datetime check
— to an empty (missing) journal and then loading returns exactly those
entries, in append order; in particular `load()` after `append(e)` on an
empty journal returns `[e]`. -/
theorem append_load_roundtrip :
    ∀ (es : List JournalEntry), (∀ e ∈ es, isZodDatetime e.createdAt = true) →
      load (es.foldl appendEntry none) = es := by
  intro es h
  cases es with
  | nil => rfl
  | cons e0 rest =>
    rw [List.foldl_cons]
    rw [show appendEntry none e0 = some (stringifyJson (entryJson e0) ++ ['\n']) from rfl]
    rw [foldl_appendEntry]
    rw [show (stringifyJson (entryJson e0) ++ ['\n'])
          ++ rest.flatMap (fun e => stringifyJson (entryJson e) ++ ['\n'])
        = ((e0 :: rest).map (fun e => stringifyJson (entryJson e))).flatMap
            (fun l => l ++ ['\n']) from by
      rw [flatMap_lines]
      simp [List.append_assoc]]
    rw [flatNl_eq_joinNl _ (by simp)]
    obtain ⟨mid, hmid⟩ := joinNl_shape
      ((e0 :: rest).map (fun e => stringifyJson (entryJson e))) (by simp)
      (by
        intro l hl
        simp only [List.mem_map] at hl
        obtain ⟨e, _, rfl⟩ := hl
        exact entryLine_shape e)
    have hsplit : jsSplit '\n'
        (joinNl ((e0 :: rest).map (fun e => stringifyJson (entryJson e))))
        = (e0 :: rest).map (fun e => stringifyJson (entryJson e)) := by
      refine jsSplit_joinNl _ (by simp) ?_
      intro l hl
      simp only [List.mem_map] at hl
      obtain ⟨e, _, rfl⟩ := hl
      exact entryLine_no_newline e
    rw [load]
    rw [hmid, jsTrim_brace_line, ← hmid, hsplit, parseLines_map (e0 :: rest) h]

/-- Witness for C5: two concrete valid entries — the second carrying a tag —
appended to a missing file load back exactly, in order. -/
theorem append_load_roundtrip_witness :
    (∀ e ∈ [(⟨("A").data, [], ("2025-04-19T00:00:00.000Z").data⟩ : JournalEntry),
            ⟨("B").data, [("t").data], ("2025-04-19T00:00:00.000Z").data⟩],
        isZodDatetime e.createdAt = true)
      ∧ load ([(⟨("A").data, [], ("2025-04-19T00:00:00.000Z").data⟩ : JournalEntry),
               ⟨("B").data, [("t").data], ("2025-04-19T00:00:00.000Z").data⟩].foldl
            appendEntry none)
          = [⟨("A").data, [], ("2025-04-19T00:00:00.000Z").data⟩,
             ⟨("B").data, [("t").data], ("2025-04-19T00:00:00.000Z").data⟩] :=
  ⟨by decide,
   append_load_roundtrip
     [⟨("A").data, [], ("2025-04-19T00:00:00.000Z").data⟩,
      ⟨("B").data, [("t").data], ("2025-04-19T00:00:00.000Z").data⟩]
     (by decide)⟩

end MemMoi
